import Mathlib

/-!
# Verification of the DFA simulator core (gnaplds/dfa-simulator)

Shallow embedding of the automaton data model, the transition-validation
engine and the string-acceptance / step-trace algorithms of the repository.

The repository contains two variants of the mutation engine:

* `main.js` — a standalone `DFASimulator` class whose `confirmTransition`
  (lines 580-671) parses the modal input, checks symbol lengths, then either
  merges into an existing `(from, to)` transition (lines 612-622, with *no*
  determinism check) or runs the per-symbol determinism check and creates a
  new transition (lines 624-665).
* `baseAutomaton.js` + `dfaSimulator.js` — `BaseAutomaton.confirmTransition`
  (lines 114-146) first calls the DFA subclass's `validateTransition`
  (dfaSimulator.js lines 452-472: length check, then a determinism check of
  every requested symbol against *all* transitions leaving `from`), and then
  `BaseAutomaton.createNewTransition` (lines 148-196: merge into the existing
  `(from, to)` transition or push a new one).

Both variants share the identical `simulateInput`, `startStepDebug`,
`stepNext`/`stepPrev`, `deleteState` and `runBulkTest` logic, embedded once.

## Symbol representation

The source stores a transition's symbols as a comma-joined string
(`t.symbol`), but every read goes through
`t.symbol.split(',').map(s => s.trim())` and every write through
`symbols.join(', ')`, where the individual symbols always come from the modal
input parse `input.split(',').map(s => s.trim()).filter(s => s.length > 0)`
(so they are non-empty, contain no comma, and carry no surrounding
whitespace; the DFA variants additionally force length 1).  On such symbol
lists the split and join are mutually inverse, so the embedding stores the
parsed list directly in `Transition.symbol` and models the input-boundary
parse separately as `parseSymbolString`.  JavaScript's `for (const c of s)`
iteration over the tested input string is modeled by `List Char`.

Presentation-only fields (`x`, `y`, `offset`, `offsetDirection`,
`labelOffset`, `selfLoopAngle`) and the display-message strings of debug
steps are opaque payload never read by the algorithms verified here and are
omitted from the embedding.
-/

/-- A state of the automaton: `id` (unique counter value), display `label`,
and the `isFinal` flag.  The presentation coordinates `x`, `y` are omitted
(opaque payload). -/
structure State where
  id : Nat
  label : String
  isFinal : Bool
deriving DecidableEq, Repr

/-- A transition.  `tid` models the JS `id` field (`Date.now() + Math.random()`,
supplied here as an explicit fresh value); `fromS` and `toS` model the JS
fields `from` and `to` (both Lean keywords); `symbol` holds the parsed
symbol list (see the header comment on the comma-joined representation). -/
structure Transition where
  tid : Nat
  fromS : State
  toS : State
  symbol : List String
deriving DecidableEq, Repr

/-- The automaton model owned by the simulator object: `states`,
`transitions` and the optional `startState`. -/
structure Automaton where
  states : List State
  transitions : List Transition
  startState : Option State
deriving DecidableEq, Repr

/-- The modal input parse shared by both `confirmTransition` variants
(`main.js` line 587, `baseAutomaton.js` line 121):
`input.split(',').map(s => s.trim()).filter(s => s.length > 0)`. -/
def parseSymbolString (input : String) : List String :=
  ((input.splitOn ",").map String.trim).filter (fun s => s.length > 0)

/-- The single-symbol lookup both engines build on (`main.js` lines
1140-1144, `dfaSimulator.js` lines 483-487): the first transition leaving
`cur` whose symbol set contains the one-character string for `c`. -/
def findTransition (ts : List Transition) (cur : State) (c : Char) : Option Transition :=
  ts.find? (fun t => t.fromS.id == cur.id && t.symbol.contains (String.singleton c))

/-- The character-consuming walk of `simulateInput` from a given current
state (`main.js` lines 1137-1153): reject on a missing transition, follow
`transition.to` otherwise, and report `isFinal` once the input is consumed. -/
def simulateFrom (ts : List Transition) : State → List Char → Bool
  | cur, [] => cur.isFinal
  | cur, c :: rest =>
    match findTransition ts cur c with
    | none => false
    | some t => simulateFrom ts t.toS rest

/-- `DFASimulator.simulateInput` (`main.js` lines 1131-1154,
`dfaSimulator.js` lines 475-497): returns `false` when no start state is
set, otherwise walks the input from `startState`. -/
def simulateInput (A : Automaton) (input : List Char) : Bool :=
  match A.startState with
  | none => false
  | some s0 => simulateFrom A.transitions s0 input

/-- One entry of `debugSteps` as pushed by `startStepDebug` (`main.js` lines
1171-1226).  The display `message` string is omitted (presentation only);
the `rejected`, `final` and `accepted` flags default to `false`, matching
their absence on the JS objects that do not set them. -/
structure DebugStep where
  step : Nat
  state : State
  char : Option Char
  transition : Option Transition
  remaining : List Char
  rejected : Bool := false
  final : Bool := false
  accepted : Bool := false
deriving DecidableEq, Repr

/-- The step-pushing loop of `startStepDebug` (`main.js` lines 1180-1211),
started at index `i` in state `cur`: each consumed character pushes a step
with index `i + 1`; a missing transition pushes a terminal step flagged
`rejected` and stops. -/
def stepsFrom (ts : List Transition) : State → List Char → Nat → List DebugStep
  | _cur, [], _i => []
  | cur, c :: rest, i =>
    match findTransition ts cur c with
    | none =>
      [{ step := i + 1, state := cur, char := some c, transition := none,
         remaining := c :: rest, rejected := true }]
    | some t =>
      { step := i + 1, state := t.toS, char := some c, transition := some t,
        remaining := rest } :: stepsFrom ts t.toS rest (i + 1)

/-- The value of the loop variable `currentState` after the loop of
`startStepDebug` (`main.js` lines 1180-1211): the state reached after
following transitions as far as they exist. -/
def finalStateFrom (ts : List Transition) : State → List Char → State
  | cur, [] => cur
  | cur, c :: rest =>
    match findTransition ts cur c with
    | none => cur
    | some t => finalStateFrom ts t.toS rest

/-- `DFASimulator.startStepDebug` (`main.js` lines 1157-1231,
`dfaSimulator.js` lines 515-589): `none` models the early `alert` return
when no start state is set; otherwise step 0 is pushed, the consuming loop
runs, and unless the last pushed step is `rejected` a final step with index
`input.length + 1` and the `final`/`accepted` flags is appended. -/
def startStepDebug (A : Automaton) (input : List Char) : Option (List DebugStep) :=
  match A.startState with
  | none => none
  | some s0 =>
    let step0 : DebugStep :=
      { step := 0, state := s0, char := none, transition := none, remaining := input }
    let steps := step0 :: stepsFrom A.transitions s0 input 0
    if (steps.getLastD step0).rejected then some steps
    else
      let fin := finalStateFrom A.transitions s0 input
      some (steps ++ [{ step := input.length + 1, state := fin, char := none,
                        transition := none, remaining := [], final := true,
                        accepted := fin.isFinal }])

/-- Concrete two-state automaton: `q0 --a--> q1`, `q1` final, `q0` start.
Symbol lists are written directly in parsed form (`parseSymbolString "a" =
["a"]`); `String.splitOn` is defined by well-founded recursion and does not
reduce inside kernel-checked `decide` proofs. -/
def exQ0 : State := { id := 0, label := "q0", isFinal := false }

def exQ1 : State := { id := 1, label := "q1", isFinal := true }

def exA1 : Automaton :=
  { states := [exQ0, exQ1],
    transitions := [{ tid := 10, fromS := exQ0, toS := exQ1,
                      symbol := ["a"] }],
    startState := some exQ0 }

/-- `exA1` with the start state removed. -/
def exA1noStart : Automaton :=
  { exA1 with startState := none }

/-- Whether the consuming loop of `simulateInput` / `startStepDebug` hits a
missing transition somewhere along the walk (the condition steering the
`if (!transition)` branches of `main.js` lines 1146 / 1188). -/
def walkRejects (ts : List Transition) : State → List Char → Bool
  | _, [] => false
  | cur, c :: rest =>
    match findTransition ts cur c with
    | none => true
    | some t => walkRejects ts t.toS rest

/-- Reference sequence for the trace-consistency property: the list of
(state entered, transition used) pairs that the `simulateInput` walk visits,
read off from the same lookup and recursion; the walk stops at the first
missing transition. -/
def acceptsSteps (ts : List Transition) : State → List Char → List (State × Transition)
  | _, [] => []
  | cur, c :: rest =>
    match findTransition ts cur c with
    | none => []
    | some t => (t.toS, t) :: acceptsSteps ts t.toS rest

/-- Neutral `DebugStep` used as the default of `List.getLastD` in theorem
statements (never an actual trace entry in the properties proved, since the
step lists involved are non-empty). -/
def debugStepDefault : DebugStep :=
  { step := 0, state := { id := 0, label := "", isFinal := false },
    char := none, transition := none, remaining := [] }

/-- Second final state for the three-state chain `exA2`. -/
def exQ2 : State := { id := 2, label := "q2", isFinal := true }

/-- Intermediate, non-final variant of `q1` for the chain `exA2`. -/
def exQ1mid : State := { id := 1, label := "q1", isFinal := false }

/-- Concrete chain `q0 --a--> q1 --b--> q2` with `q0` start and `q2` final:
a 2-character accepting path for the trace-shape scenario. -/
def exA2 : Automaton :=
  { states := [exQ0, exQ1mid, exQ2],
    transitions :=
      [{ tid := 20, fromS := exQ0, toS := exQ1mid, symbol := ["a"] },
       { tid := 21, fromS := exQ1mid, toS := exQ2, symbol := ["b"] }],
    startState := some exQ0 }


/-- The error kinds thrown by the transition-validation paths.
`invalidSymbol` models "Each symbol must be exactly one character!",
`duplicateSymbol` models "All symbols already exist for this transition!",
`determinismViolation sym` models "DFA rule violation: State ... already has
a transition for symbol `sym`!". -/
inductive TransErr where
  | invalidSymbol
  | duplicateSymbol
  | determinismViolation (sym : String)
deriving DecidableEq, Repr

/-- `DFASimulator.validateTransition` (dfaSimulator.js lines 452-472),
returning the thrown error if any: first the length-1 check over all
symbols, then the per-symbol DFA determinism check against *every*
transition leaving `fromState` (including one to `toState` itself — the
`toState` parameter is unused by the source body, so it is omitted here). -/
def validateTransition (A : Automaton) (fromState : State) (symbols : List String) :
    Option TransErr :=
  match symbols.find? (fun s => s.length != 1) with
  | some _ => some .invalidSymbol
  | none =>
    match symbols.find? (fun sym =>
        (A.transitions.find? (fun t =>
          t.fromS.id == fromState.id && t.symbol.contains sym)).isSome) with
    | some sym => some (.determinismViolation sym)
    | none => none

/-- Replace the first transition for the ordered pair `(fid, tid)` by the
same transition with symbol list `merged`: the in-place
`existingTransition.symbol = [...existingSymbols, ...newSymbols].join(', ')`
mutation of the object returned by `transitions.find` (`main.js` line 618,
`baseAutomaton.js` line 160). -/
def mergeSymbols (ts : List Transition) (fid tid : Nat) (merged : List String) :
    List Transition :=
  match ts with
  | [] => []
  | t :: rest =>
    if t.fromS.id == fid && t.toS.id == tid then { t with symbol := merged } :: rest
    else t :: mergeSymbols rest fid tid merged

/-- `BaseAutomaton.createNewTransition` (baseAutomaton.js lines 148-196) as
a pair (thrown error if any, model afterwards): merge the fresh symbols
into the existing `(from, to)` transition, throw `DuplicateSymbolError`
when nothing is new, or push a new transition with id `newId` (the JS
`Date.now() + Math.random()`, passed explicitly).  Presentation-only
positioning fields (offsets, self-loop angle) are omitted. -/
def createNewTransition (A : Automaton) (fromS toS : State) (symbols : List String)
    (newId : Nat) : Option TransErr × Automaton :=
  match A.transitions.find? (fun t => t.fromS.id == fromS.id && t.toS.id == toS.id) with
  | some existingTransition =>
    let existingSymbols := existingTransition.symbol
    let newSymbols := symbols.filter (fun s => !(existingSymbols.contains s))
    if 0 < newSymbols.length then
      let merged := mergeSymbols A.transitions fromS.id toS.id
        (existingSymbols ++ newSymbols)
      (none, { A with transitions := merged })
    else
      (some .duplicateSymbol, A)
  | none =>
    (none, { A with transitions := A.transitions ++
      [{ tid := newId, fromS := fromS, toS := toS, symbol := symbols }] })

/-- `BaseAutomaton.confirmTransition` (baseAutomaton.js lines 114-146)
composed with the DFA subclass's `validateTransition`, on already-parsed
symbols and excluding the `editingTransition` path: validate (the thrown
error is caught and surfaced, the model untouched), then create/merge
(whose duplicate error propagates with the model untouched). -/
def confirmTransitionBase (A : Automaton) (fromS toS : State) (symbols : List String)
    (newId : Nat) : Option TransErr × Automaton :=
  match validateTransition A fromS symbols with
  | some e => (some e, A)
  | none => createNewTransition A fromS toS symbols newId

/-- `DFASimulator.confirmTransition` of the standalone `main.js` variant
(lines 580-671), on already-parsed symbols and excluding the
`editingTransition` path: length check first, then either merge into the
existing `(from, to)` transition — with *no* determinism check (lines
612-622) — or run the per-symbol determinism check and push a new
transition (lines 624-665). -/
def confirmTransitionMain (A : Automaton) (fromS toS : State) (symbols : List String)
    (newId : Nat) : Option TransErr × Automaton :=
  if symbols.any (fun s => s.length != 1) then (some .invalidSymbol, A)
  else
    match A.transitions.find? (fun t => t.fromS.id == fromS.id && t.toS.id == toS.id) with
    | some existingTransition =>
      let existingSymbols := existingTransition.symbol
      let newSymbols := symbols.filter (fun s => !(existingSymbols.contains s))
      if 0 < newSymbols.length then
        let merged := mergeSymbols A.transitions fromS.id toS.id
          (existingSymbols ++ newSymbols)
        (none, { A with transitions := merged })
      else
        (some .duplicateSymbol, A)
    | none =>
      match symbols.find? (fun sym =>
          (A.transitions.find? (fun t =>
            t.fromS.id == fromS.id && t.symbol.contains sym)).isSome) with
      | some sym => (some (.determinismViolation sym), A)
      | none =>
        (none, { A with transitions := A.transitions ++
          [{ tid := newId, fromS := fromS, toS := toS, symbol := symbols }] })

/-- Two transitions are jointly deterministic: they leave different states
or share no symbol. -/
def compatB (t u : Transition) : Bool :=
  t.fromS.id != u.fromS.id || t.symbol.all (fun sym => !(u.symbol.contains sym))

/-- The DFA determinism invariant over a transition list: no two distinct
occurrences of transitions leave the same state carrying a common symbol. -/
def detOK : List Transition → Bool
  | [] => true
  | t :: rest => rest.all (fun u => compatB t u) && detOK rest

/-- Number of transitions leaving the state with id `sid` that carry symbol
`sym` — the count the determinism invariant bounds by 1. -/
def countFromSym (ts : List Transition) (sid : Nat) (sym : String) : Nat :=
  (ts.filter (fun t => t.fromS.id == sid && t.symbol.contains sym)).length

/-- `BaseAutomaton.deleteState` (baseAutomaton.js lines 92-104; the same
logic is inlined in the `main.js` `confirmDelete`, lines 1072-1083): drop
the state by id, drop every transition incident to it, and null the start
state when it was the deleted one. -/
def deleteState (A : Automaton) (st : State) : Automaton :=
  { states := A.states.filter (fun s => s.id != st.id),
    transitions := A.transitions.filter (fun t =>
      t.fromS.id != st.id && t.toS.id != st.id),
    startState :=
      match A.startState with
      | some s0 => if s0.id == st.id then none else some s0
      | none => none }

/-- One bulk-test result row (`main.js` lines 1832-1837 and 1851-1856).
The JS `string` field holds a display string (with "(empty string)"
substituted for the empty input); the embedding keeps the tested string
itself, with the `expected`/`actual` verdicts as Booleans (`true` =
ACCEPT). -/
structure BulkResult where
  string : List Char
  expected : Bool
  actual : Bool
  passed : Bool
deriving DecidableEq, Repr

/-- One `forEach` section of `runBulkTest` (`main.js` lines 1825-1842 and
1844-1861): a string is tested only when it is empty or occurs exactly once
in its list (`str === '' || indexOf(str) === lastIndexOf(str)`); each
tested string yields one row comparing `simulateInput` with the
expectation. -/
def bulkSection (A : Automaton) (strs : List (List Char)) (expectedAccept : Bool) :
    List BulkResult :=
  (strs.filter (fun s => s.isEmpty || strs.count s == 1)).map (fun s =>
    let actual := simulateInput A s
    { string := s, expected := expectedAccept, actual := actual,
      passed := actual == expectedAccept })

/-- `runBulkTest` (`main.js` lines 1805-1864, dfaSimulator.js lines
979-1038): `none` models the early `alert` return when no start state is
set; otherwise the accept-list rows followed by the reject-list rows. -/
def runBulkTest (A : Automaton) (acceptStrings rejectStrings : List (List Char)) :
    Option (List BulkResult) :=
  match A.startState with
  | none => none
  | some _ =>
    some (bulkSection A acceptStrings true ++ bulkSection A rejectStrings false)

/-- `DFASimulator.stepNext` (`main.js` lines 1233-1238) acting on the
`currentDebugStep` index, with `debugStepsLength` the length of
`debugSteps`: advance unless already at the last step. -/
def stepNext (debugStepsLength : Nat) (currentDebugStep : Int) : Int :=
  if currentDebugStep < (debugStepsLength : Int) - 1 then currentDebugStep + 1
  else currentDebugStep

/-- `DFASimulator.stepPrev` (`main.js` lines 1240-1245): go back unless at
step 0. -/
def stepPrev (currentDebugStep : Int) : Int :=
  if 0 < currentDebugStep then currentDebugStep - 1 else currentDebugStep

/-- A sequence of debugger clicks, `true` = `stepNext` and `false` =
`stepPrev`, folded over the current step index. -/
def runDebugNav (debugStepsLength : Nat) : List Bool → Int → Int
  | [], cur => cur
  | mv :: rest, cur =>
    runDebugNav debugStepsLength rest
      (if mv then stepNext debugStepsLength cur else stepPrev cur)

/-- Non-final target state `q2` used by the merge counterexamples. -/
def exQ2nf : State := { id := 2, label := "q2", isFinal := false }

/-- Automaton with `q0 --x--> q1` and `q0 --a--> q2`: the pair `(q0, q1)`
already has a transition, and symbol `a` is carried by another transition
leaving `q0`. -/
def exA3 : Automaton :=
  { states := [exQ0, exQ1, exQ2nf],
    transitions :=
      [{ tid := 30, fromS := exQ0, toS := exQ1, symbol := ["x"] },
       { tid := 31, fromS := exQ0, toS := exQ2nf, symbol := ["a"] }],
    startState := some exQ0 }

/-- Automaton with only `q0 --a--> q2`: no transition for the pair
`(q0, q1)`, and symbol `a` already used from `q0`. -/
def exA6 : Automaton :=
  { states := [exQ0, exQ1, exQ2nf],
    transitions := [{ tid := 33, fromS := exQ0, toS := exQ2nf, symbol := ["a"] }],
    startState := some exQ0 }

/-- The model after a successful merge: the automaton with the first
`(fid, tid)` transition's symbol list replaced by `merged`. -/
def mergeResult (A : Automaton) (fid tid : Nat) (merged : List String) : Automaton :=
  { A with transitions := mergeSymbols A.transitions fid tid merged }

/-- C1: `accepts` (`simulateInput`) walks the automaton from `startState`
consuming one character at a time via the single-symbol lookup
`findTransition`; it returns `false` immediately on a missing transition,
returns `current.isFinal` after consuming all characters, returns `false`
without error when `startState` is null, and accepts the empty input iff
`startState.isFinal`. -/
theorem simulateInput_walk_spec (A : Automaton) :
    (A.startState = none → ∀ input, simulateInput A input = false)
    ∧ (∀ s0, A.startState = some s0 → simulateInput A [] = s0.isFinal)
    ∧ (∀ s0 input, A.startState = some s0 →
        simulateInput A input = simulateFrom A.transitions s0 input)
    ∧ (∀ cur, simulateFrom A.transitions cur [] = cur.isFinal)
    ∧ (∀ cur c rest, findTransition A.transitions cur c = none →
        simulateFrom A.transitions cur (c :: rest) = false)
    ∧ (∀ cur c rest t, findTransition A.transitions cur c = some t →
        simulateFrom A.transitions cur (c :: rest) = simulateFrom A.transitions t.toS rest) := by
  refine ⟨fun h input => ?_, fun s0 h => ?_, fun s0 input h => ?_,
    fun cur => rfl, fun cur c rest h => ?_, fun cur c rest t h => ?_⟩
  · simp [simulateInput, h]
  · simp [simulateInput, h, simulateFrom]
  · simp [simulateInput, h]
  · simp [simulateFrom, h]
  · simp [simulateFrom, h]

/-- Witness for C1 on the concrete automaton `exA1`: the no-start-state
policy, the empty-input rule and one full walk, each obtained from
`simulateInput_walk_spec` with its hypotheses discharged concretely. -/
theorem simulateInput_walk_spec_witness :
    simulateInput exA1noStart [Char.ofNat 97] = false
    ∧ simulateInput exA1 [] = false
    ∧ simulateInput exA1 [Char.ofNat 97] = simulateFrom exA1.transitions exQ0 [Char.ofNat 97] := by
  refine ⟨(simulateInput_walk_spec exA1noStart).1 rfl _, ?_, ?_⟩
  · have h := (simulateInput_walk_spec exA1).2.1 exQ0 rfl
    rw [h]; decide
  · exact (simulateInput_walk_spec exA1).2.2.1 exQ0 [Char.ofNat 97] rfl

/-- The last element of a cons cell via `getLastD` of the tail. -/
theorem getLast?_cons_eq_getLastD {α : Type} (l : List α) (a : α) :
    (a :: l).getLast? = some (l.getLastD a) := by
  induction l generalizing a with
  | nil => rfl
  | cons b l ih => rw [List.getLast?_cons_cons, ih, List.getLastD_cons]

/-- The `rejected` flag of the last step pushed by the consuming loop equals
`walkRejects` (given a non-rejected fallback for the empty walk). -/
theorem stepsFrom_getLastD_rejected (ts : List Transition) (input : List Char) :
    ∀ (cur : State) (i : Nat) (d : DebugStep), d.rejected = false →
      ((stepsFrom ts cur input i).getLastD d).rejected = walkRejects ts cur input := by
  induction input with
  | nil => intro cur i d hd; simpa [stepsFrom, walkRejects] using hd
  | cons c rest ih =>
    intro cur i d hd
    cases hf : findTransition ts cur c with
    | none => simp [stepsFrom, walkRejects, hf]
    | some t =>
      simp only [stepsFrom, walkRejects, hf, List.getLastD_cons]
      exact ih t.toS (i + 1) _ rfl

/-- In a rejecting walk the last pushed step carries neither the `final` nor
the `accepted` flag. -/
theorem stepsFrom_reject_flags (ts : List Transition) (input : List Char) :
    ∀ (cur : State) (i : Nat) (d : DebugStep), walkRejects ts cur input = true →
      ((stepsFrom ts cur input i).getLastD d).final = false
      ∧ ((stepsFrom ts cur input i).getLastD d).accepted = false := by
  induction input with
  | nil => intro cur i d hw; simp [walkRejects] at hw
  | cons c rest ih =>
    intro cur i d hw
    cases hf : findTransition ts cur c with
    | none => simp [stepsFrom, hf]
    | some t =>
      simp only [walkRejects, hf] at hw
      simp only [stepsFrom, hf, List.getLastD_cons]
      exact ih t.toS (i + 1) _ hw

/-- A rejecting walk makes `simulateFrom` return `false`. -/
theorem simulateFrom_of_reject (ts : List Transition) (input : List Char) :
    ∀ cur : State, walkRejects ts cur input = true →
      simulateFrom ts cur input = false := by
  induction input with
  | nil => intro cur hw; simp [walkRejects] at hw
  | cons c rest ih =>
    intro cur hw
    cases hf : findTransition ts cur c with
    | none => simp [simulateFrom, hf]
    | some t =>
      simp only [walkRejects, hf] at hw
      simp only [simulateFrom, hf]
      exact ih t.toS hw

/-- A non-rejecting walk makes `simulateFrom` report the `isFinal` flag of
the state the loop ends in. -/
theorem simulateFrom_of_ok (ts : List Transition) (input : List Char) :
    ∀ cur : State, walkRejects ts cur input = false →
      simulateFrom ts cur input = (finalStateFrom ts cur input).isFinal := by
  induction input with
  | nil => intro cur _; simp [simulateFrom, finalStateFrom]
  | cons c rest ih =>
    intro cur hw
    cases hf : findTransition ts cur c with
    | none => simp [walkRejects, hf] at hw
    | some t =>
      simp only [walkRejects, hf] at hw
      simp only [simulateFrom, finalStateFrom, hf]
      exact ih t.toS hw

/-- The (state, transition) pairs recorded by the consuming loop are exactly
the pairs the `simulateInput` walk visits. -/
theorem stepsFrom_filterMap (ts : List Transition) (input : List Char) :
    ∀ (cur : State) (i : Nat),
      (stepsFrom ts cur input i).filterMap
          (fun st => st.transition.map (fun t => (st.state, t)))
        = acceptsSteps ts cur input := by
  induction input with
  | nil => intro cur i; simp [stepsFrom, acceptsSteps]
  | cons c rest ih =>
    intro cur i
    cases hf : findTransition ts cur c with
    | none => simp [stepsFrom, acceptsSteps, hf]
    | some t =>
      simp only [stepsFrom, acceptsSteps, hf, List.filterMap_cons]
      simpa using ih t.toS (i + 1)

/-- In a non-rejecting walk the loop pushes one step per input character,
numbered consecutively from `i + 1`. -/
theorem stepsFrom_map_step_of_ok (ts : List Transition) (input : List Char) :
    ∀ (cur : State) (i : Nat), walkRejects ts cur input = false →
      (stepsFrom ts cur input i).map DebugStep.step
        = List.range' (i + 1) input.length := by
  induction input with
  | nil => intro cur i _; simp [stepsFrom]
  | cons c rest ih =>
    intro cur i hw
    cases hf : findTransition ts cur c with
    | none => simp [walkRejects, hf] at hw
    | some t =>
      simp only [walkRejects, hf] at hw
      simp only [stepsFrom, hf, List.map_cons, List.length_cons, List.range'_succ]
      exact congrArg (List.cons (i + 1)) (ih t.toS (i + 1) hw)

/-- C3: for every automaton with a start state and every input, `accepts`
(`simulateInput`) equals the conjunction of the last trace step's `final`
and `accepted` flags, the trace starts at the start state, and the
(state, transition) sequence the trace records is identical to the sequence
the `accepts` walk visits. -/
theorem trace_accepts_consistent (A : Automaton) (s0 : State)
    (h : A.startState = some s0) (input : List Char) :
    (startStepDebug A input).isSome = true
    ∧ ((startStepDebug A input).getD []).head?.map DebugStep.state = some s0
    ∧ simulateInput A input
        = ((((startStepDebug A input).getD []).getLastD debugStepDefault).final
            && (((startStepDebug A input).getD []).getLastD debugStepDefault).accepted)
    ∧ ((startStepDebug A input).getD []).filterMap
          (fun st => st.transition.map (fun t => (st.state, t)))
        = acceptsSteps A.transitions s0 input := by
  have hsim : simulateInput A input = simulateFrom A.transitions s0 input := by
    simp [simulateInput, h]
  set step0 : DebugStep :=
    { step := 0, state := s0, char := none, transition := none, remaining := input } with hstep0
  have hcond : (((step0 :: stepsFrom A.transitions s0 input 0).getLastD step0)).rejected
      = walkRejects A.transitions s0 input := by
    rw [List.getLastD_cons]
    exact stepsFrom_getLastD_rejected A.transitions input s0 0 step0 rfl
  cases hw : walkRejects A.transitions s0 input with
  | true =>
    have hout : startStepDebug A input
        = some (step0 :: stepsFrom A.transitions s0 input 0) := by
      simp only [startStepDebug, h]
      rw [if_pos (by rw [hcond, hw])]
    have hflags := stepsFrom_reject_flags A.transitions input s0 0 step0 hw
    refine ⟨by simp [hout], by simp [hout], ?_, ?_⟩
    · rw [hout]
      simp only [Option.getD_some, List.getLastD_cons]
      rw [hflags.1, hflags.2, hsim, simulateFrom_of_reject A.transitions input s0 hw]
      rfl
    · rw [hout]
      simp only [Option.getD_some, List.filterMap_cons]
      simpa using stepsFrom_filterMap A.transitions input s0 0
  | false =>
    set fin := finalStateFrom A.transitions s0 input with hfin
    set finStep : DebugStep :=
      { step := input.length + 1, state := fin, char := none,
        transition := none, remaining := [], final := true,
        accepted := fin.isFinal } with hfinStep
    have hout : startStepDebug A input
        = some ((step0 :: stepsFrom A.transitions s0 input 0) ++ [finStep]) := by
      simp only [startStepDebug, h]
      rw [if_neg (by rw [hcond, hw]; exact Bool.false_ne_true)]
    refine ⟨by simp [hout], ?_, ?_, ?_⟩
    · rw [hout]; simp
    · rw [hout]
      simp only [Option.getD_some, List.getLastD_concat]
      rw [hsim, simulateFrom_of_ok A.transitions input s0 hw]
      simp [hfinStep]
    · rw [hout]
      simp only [Option.getD_some, List.cons_append, List.filterMap_cons,
        List.filterMap_append]
      simpa [hfinStep] using stepsFrom_filterMap A.transitions input s0 0

/-- Witness for C3: the consistency theorem applied to the concrete
automaton `exA1` and input `"a"`, its start-state hypothesis discharged by
`rfl`. -/
theorem trace_accepts_consistent_witness :
    (startStepDebug exA1 ['a']).isSome = true
    ∧ ((startStepDebug exA1 ['a']).getD []).head?.map DebugStep.state = some exQ0
    ∧ simulateInput exA1 ['a']
        = ((((startStepDebug exA1 ['a']).getD []).getLastD debugStepDefault).final
            && (((startStepDebug exA1 ['a']).getD []).getLastD debugStepDefault).accepted)
    ∧ ((startStepDebug exA1 ['a']).getD []).filterMap
          (fun st => st.transition.map (fun t => (st.state, t)))
        = acceptsSteps exA1.transitions exQ0 ['a'] :=
  trace_accepts_consistent exA1 exQ0 rfl ['a']

/-- C7 counterexample: on the concrete 2-character accepting path of `exA2`
(premise checked by the first conjunct), the trace has 4 steps with indices
0, 1, 2, 3 — not 3 steps with indices 0, 1, 2 as claimed: the loop pushes
steps 0..2 and the final step is numbered `input.length + 1 = 3`. -/
theorem trace_two_char_four_steps :
    simulateInput exA2 ['a', 'b'] = true
    ∧ (startStepDebug exA2 ['a', 'b']).map List.length = some 4
    ∧ (startStepDebug exA2 ['a', 'b']).map (List.map DebugStep.step)
        = some [0, 1, 2, 3] := by
  refine ⟨by decide, by decide, by decide⟩

/-- C7 (amended): on an automaton with a start state and an input consumed
in full (no rejection), the trace has `input.length + 2` steps whose
indices are `0, 1, …, input.length + 1`; step 0 carries no character and no
transition, and the last step has index `input.length + 1` and carries
`final = true` (with `accepted = true` on an accepting path).  For a
2-character accepting path this means exactly 4 steps, indices 0–3. -/
theorem trace_full_consumption_shape (A : Automaton) (s0 : State) (input : List Char)
    (h : A.startState = some s0)
    (hok : walkRejects A.transitions s0 input = false)
    (hfin : (finalStateFrom A.transitions s0 input).isFinal = true) :
    ((startStepDebug A input).getD []).length = input.length + 2
    ∧ ((startStepDebug A input).getD []).map DebugStep.step
        = List.range (input.length + 2)
    ∧ ((startStepDebug A input).getD []).head?.map DebugStep.char = some none
    ∧ ((startStepDebug A input).getD []).head?.map DebugStep.transition = some none
    ∧ (((startStepDebug A input).getD []).getLastD debugStepDefault).step
        = input.length + 1
    ∧ (((startStepDebug A input).getD []).getLastD debugStepDefault).final = true
    ∧ (((startStepDebug A input).getD []).getLastD debugStepDefault).accepted = true := by
  set step0 : DebugStep :=
    { step := 0, state := s0, char := none, transition := none, remaining := input } with hstep0
  set fin := finalStateFrom A.transitions s0 input with hfin'
  set finStep : DebugStep :=
    { step := input.length + 1, state := fin, char := none,
      transition := none, remaining := [], final := true,
      accepted := fin.isFinal } with hfinStep
  have hcond : (((step0 :: stepsFrom A.transitions s0 input 0).getLastD step0)).rejected
      = walkRejects A.transitions s0 input := by
    rw [List.getLastD_cons]
    exact stepsFrom_getLastD_rejected A.transitions input s0 0 step0 rfl
  have hout : startStepDebug A input
      = some ((step0 :: stepsFrom A.transitions s0 input 0) ++ [finStep]) := by
    simp only [startStepDebug, h]
    rw [if_neg (by rw [hcond, hok]; exact Bool.false_ne_true)]
  have hmap : (stepsFrom A.transitions s0 input 0).map DebugStep.step
      = List.range' 1 input.length :=
    stepsFrom_map_step_of_ok A.transitions input s0 0 hok
  have hlen : (stepsFrom A.transitions s0 input 0).length = input.length := by
    have := congrArg List.length hmap
    simpa using this
  refine ⟨?_, ?_, ?_, ?_, ?_, ?_, ?_⟩
  · rw [hout]; simp [hlen]
  · rw [hout]
    simp only [Option.getD_some, List.cons_append, List.map_cons, List.map_append,
      List.map_cons, List.map_nil, hmap, hfinStep]
    rw [List.range_eq_range']
    rw [show input.length + 2 = (input.length + 1) + 1 from rfl, List.range'_succ]
    rw [List.range'_concat]
    simp only [List.cons_append, List.nil_append, List.cons.injEq, true_and]
    have h1 : 0 + 1 = 1 := rfl
    have h2 : 0 + 1 + 1 * input.length = input.length + 1 := by omega
    rw [h1, h2]
  · rw [hout]; simp
  · rw [hout]; simp
  · rw [hout]
    simp only [Option.getD_some]
    rw [List.getLastD_concat]
  · rw [hout]
    simp only [Option.getD_some]
    rw [List.getLastD_concat]
  · rw [hout]
    simp only [Option.getD_some]
    rw [List.getLastD_concat]
    exact hfin

/-- Witness for the amended C7: the shape theorem applied to `exA2` and the
2-character input `"ab"`, all three hypotheses discharged concretely —
giving exactly 4 steps with indices 0–3 and `final = accepted = true` on
the last one. -/
theorem trace_full_consumption_shape_witness :
    ((startStepDebug exA2 ['a', 'b']).getD []).length = 4
    ∧ ((startStepDebug exA2 ['a', 'b']).getD []).map DebugStep.step = List.range 4
    ∧ ((startStepDebug exA2 ['a', 'b']).getD []).head?.map DebugStep.char = some none
    ∧ ((startStepDebug exA2 ['a', 'b']).getD []).head?.map DebugStep.transition
        = some none
    ∧ (((startStepDebug exA2 ['a', 'b']).getD []).getLastD debugStepDefault).step = 3
    ∧ (((startStepDebug exA2 ['a', 'b']).getD []).getLastD debugStepDefault).final = true
    ∧ (((startStepDebug exA2 ['a', 'b']).getD []).getLastD debugStepDefault).accepted
        = true :=
  trace_full_consumption_shape exA2 exQ0 ['a', 'b'] rfl (by decide) (by decide)

/-- C5: whenever either `confirmTransition` variant fails with any error
(invalid symbol, determinism violation, or duplicate symbol), the model —
states, transitions, all symbol sets and the start state — is exactly as it
was before the call: all validation precedes every mutation and no partial
application of a symbol batch occurs. -/
theorem confirmTransition_atomic (A : Automaton) (fromS toS : State)
    (symbols : List String) (newId : Nat) (e : TransErr) :
    ((confirmTransitionMain A fromS toS symbols newId).1 = some e →
      (confirmTransitionMain A fromS toS symbols newId).2 = A)
    ∧ ((confirmTransitionBase A fromS toS symbols newId).1 = some e →
      (confirmTransitionBase A fromS toS symbols newId).2 = A) := by
  constructor
  · unfold confirmTransitionMain
    split
    · intro _; rfl
    · split
      · dsimp only
        split
        · intro h; simp at h
        · intro _; rfl
      · split
        · intro _; rfl
        · intro h; simp at h
  · unfold confirmTransitionBase
    split
    · intro _; rfl
    · unfold createNewTransition
      split
      · dsimp only
        split
        · intro h; simp at h
        · intro _; rfl
      · intro h; simp at h

/-- Witness for C5: on `exA1` the duplicate request `{a}` for the existing
`q0 --a--> q1` transition fails in the `main.js` variant and leaves the
automaton unchanged, via `confirmTransition_atomic` with its hypothesis
discharged by `rfl`. -/
theorem confirmTransition_atomic_witness :
    (confirmTransitionMain exA1 exQ0 exQ1 ["a"] 50).2 = exA1 :=
  (confirmTransition_atomic exA1 exQ0 exQ1 ["a"] 50 TransErr.duplicateSymbol).1 rfl

/-- C6: `deleteState s` keeps exactly the states with a different id and
exactly the transitions not incident to `s`, leaving each of them
unchanged; the start state becomes null iff it was the deleted state. -/
theorem deleteState_frame (A : Automaton) (st : State) :
    (∀ s : State, s ∈ (deleteState A st).states ↔ (s ∈ A.states ∧ s.id ≠ st.id))
    ∧ (∀ tr : Transition, tr ∈ (deleteState A st).transitions ↔
        (tr ∈ A.transitions ∧ tr.fromS.id ≠ st.id ∧ tr.toS.id ≠ st.id))
    ∧ (∀ s0, A.startState = some s0 → s0.id = st.id →
        (deleteState A st).startState = none)
    ∧ (∀ s0, A.startState = some s0 → s0.id ≠ st.id →
        (deleteState A st).startState = some s0)
    ∧ (A.startState = none → (deleteState A st).startState = none) := by
  refine ⟨fun s => ?_, fun tr => ?_, fun s0 h he => ?_, fun s0 h hne => ?_, fun h => ?_⟩
  · simp [deleteState, List.mem_filter, bne_iff_ne]
  · simp [deleteState, List.mem_filter, bne_iff_ne, and_assoc]
  · simp [deleteState, h, he]
  · simp only [deleteState, h]
    rw [if_neg]
    simpa using hne
  · simp [deleteState, h]

/-- Witness for C6: deleting the non-start state `q1` of `exA2` keeps `q0`,
drops the incident transition, and keeps the start state; deleting the
start state `q0` nulls the start state — all via `deleteState_frame` with
hypotheses discharged concretely. -/
theorem deleteState_frame_witness :
    (exQ0 ∈ (deleteState exA2 exQ1mid).states ↔
      (exQ0 ∈ exA2.states ∧ exQ0.id ≠ exQ1mid.id))
    ∧ (deleteState exA2 exQ1mid).startState = some exQ0
    ∧ (deleteState exA2 exQ0).startState = none := by
  refine ⟨(deleteState_frame exA2 exQ1mid).1 exQ0, ?_, ?_⟩
  · exact (deleteState_frame exA2 exQ1mid).2.2.2.1 exQ0 rfl (by decide)
  · exact (deleteState_frame exA2 exQ0).2.2.1 exQ0 rfl rfl

/-- C10: after a trace of `n ≥ 1` steps is built (`currentDebugStep = 0`),
any sequence of `stepNext`/`stepPrev` clicks keeps the current index within
`0 … n - 1`; `stepNext` at the last step and `stepPrev` at step 0 are
no-ops. -/
theorem stepNav_bounds (n : Nat) (hn : 1 ≤ n) (moves : List Bool) :
    (0 ≤ runDebugNav n moves 0 ∧ runDebugNav n moves 0 ≤ (n : Int) - 1)
    ∧ stepNext n ((n : Int) - 1) = (n : Int) - 1
    ∧ stepPrev 0 = 0 := by
  have key : ∀ (ms : List Bool) (cur : Int), 0 ≤ cur → cur ≤ (n : Int) - 1 →
      0 ≤ runDebugNav n ms cur ∧ runDebugNav n ms cur ≤ (n : Int) - 1 := by
    intro ms
    induction ms with
    | nil => intro cur h0 h1; exact ⟨h0, h1⟩
    | cons mv rest ih =>
      intro cur h0 h1
      cases mv
      · exact ih (stepPrev cur) (by unfold stepPrev; split <;> omega)
          (by unfold stepPrev; split <;> omega)
      · exact ih (stepNext n cur) (by unfold stepNext; split <;> omega)
          (by unfold stepNext; split <;> omega)
  refine ⟨key moves 0 le_rfl (by omega), ?_, ?_⟩
  · unfold stepNext
    rw [if_neg (lt_irrefl _)]
  · rfl

/-- Witness for C10: a trace of 2 steps navigated by three clicks stays in
bounds, and the two boundary clicks are no-ops, via `stepNav_bounds` with
`1 ≤ 2` discharged by `decide`. -/
theorem stepNav_bounds_witness :
    (0 ≤ runDebugNav 2 [true, true, false] 0
      ∧ runDebugNav 2 [true, true, false] 0 ≤ (2 : Int) - 1)
    ∧ stepNext 2 ((2 : Int) - 1) = (2 : Int) - 1
    ∧ stepPrev 0 = 0 :=
  stepNav_bounds 2 (by decide) [true, true, false]

/-- `compatB` unfolded to its propositional content. -/
theorem compatB_true_iff (t u : Transition) :
    compatB t u = true ↔ (t.fromS.id ≠ u.fromS.id ∨ ∀ s ∈ t.symbol, s ∉ u.symbol) := by
  unfold compatB
  simp [List.all_eq_true, bne_iff_ne]

/-- The pairwise invariant `detOK` bounds by 1 the number of transitions
leaving any state with any symbol. -/
theorem detOK_le_one (ts : List Transition) (h : detOK ts = true)
    (sid : Nat) (sym : String) : countFromSym ts sid sym ≤ 1 := by
  induction ts with
  | nil => simp [countFromSym]
  | cons t rest ih =>
    simp only [detOK, Bool.and_eq_true] at h
    obtain ⟨hall, hrest⟩ := h
    unfold countFromSym
    by_cases hp : (t.fromS.id == sid && t.symbol.contains sym) = true
    · simp only [List.filter_cons, hp, if_true]
      have hnil : rest.filter (fun u => u.fromS.id == sid && u.symbol.contains sym) = [] := by
        rw [List.filter_eq_nil_iff]
        intro u hu hpu
        have hc := (List.all_eq_true.mp hall) u hu
        rw [compatB_true_iff] at hc
        obtain ⟨hts, htc⟩ : _ ∧ _ := by simpa using hp
        obtain ⟨hus, huc⟩ : _ ∧ _ := by simpa using hpu
        rcases hc with hid | hdisj
        · apply hid
          have h1 : t.fromS.id = sid := by simpa using hts
          have h2 : u.fromS.id = sid := by simpa using hus
          rw [h1, h2]
        · have hmem : sym ∈ t.symbol := by simpa using htc
          exact hdisj sym hmem (by simpa using huc)
      rw [hnil]
      simp
    · simp only [List.filter_cons, hp, Bool.false_eq_true, if_false]
      exact ih hrest

/-- Appending a transition compatible with every existing one preserves the
determinism invariant. -/
theorem detOK_append_single (ts : List Transition) (nt : Transition)
    (hdet : detOK ts = true) (hcomp : ∀ t ∈ ts, compatB t nt = true) :
    detOK (ts ++ [nt]) = true := by
  induction ts with
  | nil => simp [detOK]
  | cons t rest ih =>
    simp only [detOK, Bool.and_eq_true] at hdet
    obtain ⟨hall, hrest⟩ := hdet
    simp only [List.cons_append, detOK, Bool.and_eq_true]
    refine ⟨?_, ih hrest (fun u hu => hcomp u (List.mem_cons_of_mem _ hu))⟩
    rw [List.all_eq_true]
    intro u hu
    rcases List.mem_append.mp hu with h1 | h2
    · exact List.all_eq_true.mp hall u h1
    · rw [List.mem_singleton] at h2
      exact h2 ▸ hcomp t (List.mem_cons_self _ _)

/-- Every element of `mergeSymbols ts fid tid merged` is an original
transition or a pair-matching original transition with symbol list
`merged`. -/
theorem mem_mergeSymbols (fid tid : Nat) (merged : List String) :
    ∀ (ts : List Transition) (u : Transition), u ∈ mergeSymbols ts fid tid merged →
      u ∈ ts ∨ ∃ v, v ∈ ts ∧ (v.fromS.id == fid && v.toS.id == tid) = true
        ∧ u = { v with symbol := merged } := by
  intro ts
  induction ts with
  | nil => intro u hu; simp [mergeSymbols] at hu
  | cons t rest ih =>
    intro u hu
    unfold mergeSymbols at hu
    by_cases hp : (t.fromS.id == fid && t.toS.id == tid) = true
    · rw [if_pos hp] at hu
      rcases List.mem_cons.mp hu with h1 | h2
      · exact Or.inr ⟨t, List.mem_cons_self _ _, hp, h1⟩
      · exact Or.inl (List.mem_cons_of_mem _ h2)
    · rw [if_neg hp] at hu
      rcases List.mem_cons.mp hu with h1 | h2
      · exact Or.inl (h1 ▸ List.mem_cons_self _ _)
      · rcases ih u h2 with h3 | ⟨v, hv, hvp, hveq⟩
        · exact Or.inl (List.mem_cons_of_mem _ h3)
        · exact Or.inr ⟨v, List.mem_cons_of_mem _ hv, hvp, hveq⟩

/-- Merging symbols that are fresh for the whole source state into the
first pair-matching transition preserves the determinism invariant. -/
theorem detOK_merge (fid tid : Nat) (extra : List String) (ex : Transition) :
    ∀ ts : List Transition, detOK ts = true →
      (∀ e ∈ extra, ∀ u ∈ ts, (u.fromS.id == fid) = true →
        u.symbol.contains e = false) →
      ts.find? (fun t => t.fromS.id == fid && t.toS.id == tid) = some ex →
      detOK (mergeSymbols ts fid tid (ex.symbol ++ extra)) = true := by
  intro ts
  induction ts with
  | nil => intro _ _ hfind; simp at hfind
  | cons t rest ih =>
    intro hdet hfresh hfind
    simp only [detOK, Bool.and_eq_true] at hdet
    obtain ⟨hall, hrest⟩ := hdet
    unfold mergeSymbols
    by_cases hp : (t.fromS.id == fid && t.toS.id == tid) = true
    · rw [if_pos hp]
      have hex : ex = t := by
        simp only [List.find?_cons, hp] at hfind
        exact (Option.some.inj hfind).symm
      subst hex
      simp only [detOK, Bool.and_eq_true]
      refine ⟨List.all_eq_true.mpr ?_, hrest⟩
      intro u hu
      have hcu := List.all_eq_true.mp hall u hu
      rw [compatB_true_iff] at hcu ⊢
      by_cases hid2 : ex.fromS.id = u.fromS.id
      · right
        intro s hs
        rcases List.mem_append.mp hs with hs1 | hs2
        · rcases hcu with hid | hdisj
          · exact absurd hid2 hid
          · exact hdisj s hs1
        · have hfid : (u.fromS.id == fid) = true := by
            obtain ⟨hpa, _⟩ : ex.fromS.id = fid ∧ ex.toS.id = tid := by simpa using hp
            rw [← hid2]
            simp [hpa]
          have := hfresh s hs2 u (List.mem_cons_of_mem _ hu) hfid
          simpa using this
      · exact Or.inl hid2
    · rw [if_neg hp]
      have hfind' : rest.find? (fun tr => tr.fromS.id == fid && tr.toS.id == tid)
          = some ex := by
        simp only [List.find?_cons, hp, Bool.false_eq_true] at hfind
        exact hfind
      have hfresh' : ∀ e ∈ extra, ∀ u ∈ rest, (u.fromS.id == fid) = true →
          u.symbol.contains e = false :=
        fun e he u hu hf => hfresh e he u (List.mem_cons_of_mem _ hu) hf
      simp only [detOK, Bool.and_eq_true]
      refine ⟨List.all_eq_true.mpr ?_, ih hrest hfresh' hfind'⟩
      intro u' hu'
      rcases mem_mergeSymbols fid tid _ rest u' hu' with hmem | ⟨v, hv, hvp, hveq⟩
      · exact List.all_eq_true.mp hall u' hmem
      · subst hveq
        rw [compatB_true_iff]
        by_cases hid2 : t.fromS.id = v.fromS.id
        · right
          intro s hs hmem_u
          have hfid_t : (t.fromS.id == fid) = true := by
            obtain ⟨hva, _⟩ : v.fromS.id = fid ∧ v.toS.id = tid := by simpa using hvp
            rw [hid2]
            simp [hva]
          rcases List.mem_append.mp hmem_u with hs1 | hs2
          · have hex_mem : ex ∈ rest := List.mem_of_find?_eq_some hfind'
            have hex_pred := List.find?_some hfind'
            have hcompat := List.all_eq_true.mp hall ex hex_mem
            rw [compatB_true_iff] at hcompat
            rcases hcompat with hid3 | hdisj3
            · apply hid3
              obtain ⟨hea, _⟩ : ex.fromS.id = fid ∧ ex.toS.id = tid := by
                simpa using hex_pred
              have h1 : t.fromS.id = fid := by simpa using hfid_t
              have h2 : ex.fromS.id = fid := by simpa using hea
              rw [h1, h2]
            · exact hdisj3 s hs hs1
          · have := hfresh s hs2 t (List.mem_cons_self _ _) hfid_t
            have hnot : s ∉ t.symbol := by simpa using this
            exact hnot hs
        · exact Or.inl hid2

/-- A passing `validateTransition` means no requested symbol is carried by
any transition leaving the source state. -/
theorem validate_none_fresh (A : Automaton) (fromState : State) (symbols : List String)
    (h : validateTransition A fromState symbols = none) :
    ∀ sym ∈ symbols, ∀ u ∈ A.transitions, (u.fromS.id == fromState.id) = true →
      u.symbol.contains sym = false := by
  unfold validateTransition at h
  cases h1 : symbols.find? (fun s => s.length != 1) with
  | some s => rw [h1] at h; simp at h
  | none =>
    rw [h1] at h
    cases h2 : symbols.find? (fun sym =>
        (A.transitions.find? (fun t =>
          t.fromS.id == fromState.id && t.symbol.contains sym)).isSome) with
    | some s => rw [h2] at h; simp at h
    | none =>
      intro sym hsym u hu hid
      have h3 := List.find?_eq_none.mp h2 sym hsym
      have h4 : A.transitions.find? (fun t =>
          t.fromS.id == fromState.id && t.symbol.contains sym) = none := by
        cases hq : A.transitions.find? (fun t =>
            t.fromS.id == fromState.id && t.symbol.contains sym) with
        | none => rfl
        | some t => rw [hq] at h3; simp at h3
      have h5 := List.find?_eq_none.mp h4 u hu
      cases hc : u.symbol.contains sym with
      | false => rfl
      | true => exact absurd (by rw [hid, hc]; rfl) h5

/-- Conversely, single-character symbols fresh for the whole source state
pass `validateTransition`. -/
theorem validate_none_of_fresh (A : Automaton) (fromState : State)
    (symbols : List String)
    (hlen : symbols.all (fun s => s.length == 1) = true)
    (hfresh : ∀ sym ∈ symbols, ∀ u ∈ A.transitions,
      (u.fromS.id == fromState.id) = true → u.symbol.contains sym = false) :
    validateTransition A fromState symbols = none := by
  unfold validateTransition
  have h1 : symbols.find? (fun s => s.length != 1) = none := by
    rw [List.find?_eq_none]
    intro s hs
    have := List.all_eq_true.mp hlen s hs
    simp at this ⊢
    exact this
  rw [h1]
  have h2 : symbols.find? (fun sym =>
      (A.transitions.find? (fun t =>
        t.fromS.id == fromState.id && t.symbol.contains sym)).isSome) = none := by
    rw [List.find?_eq_none]
    intro sym hsym
    have h3 : A.transitions.find? (fun t =>
        t.fromS.id == fromState.id && t.symbol.contains sym) = none := by
      rw [List.find?_eq_none]
      intro u hu hq
      obtain ⟨ha, hb⟩ : u.fromS.id = fromState.id ∧ sym ∈ u.symbol := by simpa using hq
      have hcf := hfresh sym hsym u hu (by simp [ha])
      have hnot : sym ∉ u.symbol := by simpa using hcf
      exact hnot hb
    rw [h3]
    simp
  rw [h2]

/-- C2 counterexample: in the `main.js` variant, requesting `{a}` for the
pair `(q0, q1)` while `q0 --a--> q2` exists does not fail when a
`q0 --x--> q1` transition is already present: the call succeeds through the
check-free merge branch, after which two transitions leave `q0` carrying
`a` — the determinism invariant is violated and no error is raised. -/
theorem merge_path_breaks_determinism :
    detOK exA3.transitions = true
    ∧ (confirmTransitionMain exA3 exQ0 exQ1 ["a"] 32).1 = none
    ∧ countFromSym (confirmTransitionMain exA3 exQ0 exQ1 ["a"] 32).2.transitions 0 "a"
        = 2 := by
  refine ⟨by decide, by decide, by decide⟩

/-- C2 (amended): along the `BaseAutomaton`/`validateTransition` path every
call — succeeding or failing — preserves the determinism invariant (at most
one transition from any state carries any symbol); and the scenario call
(`(q0, q1)` has no transition yet, a requested symbol is carried by another
transition from `q0`) fails with `DeterminismViolationError` leaving the
automaton unchanged in both variants.  The `main.js` variant does *not*
preserve the invariant when merging into an existing `(from, to)`
transition (see the counterexample). -/
theorem determinism_invariant (A : Automaton) (fromS toS : State)
    (symbols : List String) (newId : Nat)
    (hdet : detOK A.transitions = true) :
    (detOK (confirmTransitionBase A fromS toS symbols newId).2.transitions = true
      ∧ ∀ sid sym,
          countFromSym (confirmTransitionBase A fromS toS symbols newId).2.transitions
            sid sym ≤ 1)
    ∧ (A.transitions.find? (fun tr => tr.fromS.id == fromS.id && tr.toS.id == toS.id)
          = none →
        symbols.all (fun s => s.length == 1) = true →
        ∀ sym ∈ symbols,
        (A.transitions.find? (fun tr =>
            tr.fromS.id == fromS.id && tr.symbol.contains sym)).isSome = true →
        ∃ s, confirmTransitionBase A fromS toS symbols newId
               = (some (TransErr.determinismViolation s), A)
          ∧ confirmTransitionMain A fromS toS symbols newId
               = (some (TransErr.determinismViolation s), A)) := by
  constructor
  · cases hval : validateTransition A fromS symbols with
    | some e =>
      have hres : confirmTransitionBase A fromS toS symbols newId = (some e, A) := by
        unfold confirmTransitionBase
        rw [hval]
      rw [hres]
      exact ⟨hdet, fun sid sym => detOK_le_one _ hdet sid sym⟩
    | none =>
      have hres : confirmTransitionBase A fromS toS symbols newId
          = createNewTransition A fromS toS symbols newId := by
        unfold confirmTransitionBase
        rw [hval]
      rw [hres]
      have hfresh := validate_none_fresh A fromS symbols hval
      unfold createNewTransition
      cases hfind : A.transitions.find? (fun t =>
          t.fromS.id == fromS.id && t.toS.id == toS.id) with
      | some ex =>
        dsimp only
        by_cases hlen0 : 0 < (symbols.filter (fun s => !(ex.symbol.contains s))).length
        · rw [if_pos hlen0]
          have hd : detOK (mergeSymbols A.transitions fromS.id toS.id
              (ex.symbol ++ symbols.filter (fun s => !(ex.symbol.contains s)))) = true := by
            apply detOK_merge fromS.id toS.id _ ex A.transitions hdet ?_ hfind
            intro e he u hu hf
            exact hfresh e (List.mem_of_mem_filter he) u hu hf
          exact ⟨hd, fun sid sym => detOK_le_one _ hd sid sym⟩
        · rw [if_neg hlen0]
          exact ⟨hdet, fun sid sym => detOK_le_one _ hdet sid sym⟩
      | none =>
        dsimp only
        have hd : detOK (A.transitions
            ++ [{ tid := newId, fromS := fromS, toS := toS, symbol := symbols }])
            = true := by
          apply detOK_append_single _ _ hdet
          intro t ht
          rw [compatB_true_iff]
          by_cases hid : t.fromS.id = fromS.id
          · right
            intro s hs hmem
            have hcf := hfresh s hmem t ht (by simp [hid])
            have hnot : s ∉ t.symbol := by simpa using hcf
            exact hnot hs
          · exact Or.inl hid
        exact ⟨hd, fun sid sym => detOK_le_one _ hd sid sym⟩
  · intro hnone hlen sym hsym hconf
    have h1 : symbols.find? (fun s => s.length != 1) = none := by
      rw [List.find?_eq_none]
      intro s hs
      have := List.all_eq_true.mp hlen s hs
      simp at this ⊢
      exact this
    have h2 : (symbols.find? (fun sy =>
        (A.transitions.find? (fun t =>
          t.fromS.id == fromS.id && t.symbol.contains sy)).isSome)).isSome = true :=
      List.find?_isSome.mpr ⟨sym, hsym, hconf⟩
    obtain ⟨s, hs⟩ := Option.isSome_iff_exists.mp h2
    refine ⟨s, ?_, ?_⟩
    · unfold confirmTransitionBase validateTransition
      rw [h1, hs]
    · unfold confirmTransitionMain
      have hany : (symbols.any fun s => s.length != 1) = false := by
        rw [List.any_eq_false]
        intro x hx
        have := List.all_eq_true.mp hlen x hx
        simp at this ⊢
        exact this
      rw [hany]
      simp only [Bool.false_eq_true, if_false]
      rw [hnone, hs]

/-- Witness for the amended C2: on `exA6` (only `q0 --a--> q2`), requesting
`{a}` for `(q0, q1)` preserves the invariant and fails with a determinism
violation in both variants, via `determinism_invariant` with every
hypothesis discharged concretely. -/
theorem determinism_invariant_witness :
    detOK (confirmTransitionBase exA6 exQ0 exQ1 ["a"] 34).2.transitions = true
    ∧ countFromSym (confirmTransitionBase exA6 exQ0 exQ1 ["a"] 34).2.transitions 0 "a" ≤ 1
    ∧ (confirmTransitionBase exA6 exQ0 exQ1 ["a"] 34).1.isSome = true
    ∧ (confirmTransitionMain exA6 exQ0 exQ1 ["a"] 34).1.isSome = true := by
  have h := determinism_invariant exA6 exQ0 exQ1 ["a"] 34 (by decide)
  obtain ⟨s, hb, hm⟩ := h.2 (by decide) (by decide) "a" (by decide) (by decide)
  exact ⟨h.1.1, h.1.2 0 "a", by rw [hb]; rfl, by rw [hm]; rfl⟩

/-- Single-character symbol batches pass the `main.js` length guard. -/
theorem all_len_one_any_len_ne_one_false (symbols : List String)
    (hlen : symbols.all (fun s => s.length == 1) = true) :
    (symbols.any fun s => s.length != 1) = false := by
  rw [List.any_eq_false]
  intro x hx
  have := List.all_eq_true.mp hlen x hx
  simp at this ⊢
  exact this

/-- C4 counterexample: with only `q0 --a--> q1` present, requesting
`{a, b}` for `(q0, q1)` has the non-empty new-symbol set `{b}`, and `b` is
carried by no other transition from `q0`, so per the claim the call must
succeed and merge — but the `BaseAutomaton` path rejects it with a
determinism violation on `a`, a symbol already on the very transition being
merged into.  Conversely, in the `main.js` variant (automaton `exA3`) the
new symbol `a` carried by the *other* transition `q0 --a--> q2` is not
rejected: the merge succeeds with no check at all. -/
theorem merge_symbol_check_counterexample :
    exA1.transitions.find? (fun t => t.fromS.id == exQ0.id && t.toS.id == exQ1.id)
      = some { tid := 10, fromS := exQ0, toS := exQ1, symbol := ["a"] }
    ∧ (["a", "b"].filter (fun s => !((["a"] : List String).contains s))) = ["b"]
    ∧ confirmTransitionBase exA1 exQ0 exQ1 ["a", "b"] 40
        = (some (TransErr.determinismViolation "a"), exA1)
    ∧ (confirmTransitionMain exA3 exQ0 exQ1 ["a"] 41).1 = none := by
  refine ⟨by decide, by decide, by decide, by decide⟩

/-- C4 (amended): when the pair `(from, to)` already has a transition `ex`
and the requested batch contains new symbols, the `main.js` variant
performs no determinism check at all — the call always succeeds, appending
the new symbols to `ex` — while the `BaseAutomaton` path succeeds iff *no*
transition leaving `from` (including `ex` itself) carries *any* requested
symbol, merging identically on success. -/
theorem merge_symbol_check_behavior (A : Automaton) (fromS toS : State)
    (symbols : List String) (newId : Nat) (ex : Transition)
    (hfind : A.transitions.find? (fun t => t.fromS.id == fromS.id && t.toS.id == toS.id)
        = some ex)
    (hlen : symbols.all (fun s => s.length == 1) = true)
    (hnew : symbols.filter (fun s => !(ex.symbol.contains s)) ≠ []) :
    confirmTransitionMain A fromS toS symbols newId
      = (none, mergeResult A fromS.id toS.id
          (ex.symbol ++ symbols.filter (fun s => !(ex.symbol.contains s))))
    ∧ ((confirmTransitionBase A fromS toS symbols newId).1 = none ↔
        ∀ sym ∈ symbols, ∀ u ∈ A.transitions, (u.fromS.id == fromS.id) = true →
          u.symbol.contains sym = false)
    ∧ ((confirmTransitionBase A fromS toS symbols newId).1 = none →
        (confirmTransitionBase A fromS toS symbols newId).2
          = mergeResult A fromS.id toS.id
              (ex.symbol ++ symbols.filter (fun s => !(ex.symbol.contains s)))) := by
  have hlen0 : 0 < (symbols.filter (fun s => !(ex.symbol.contains s))).length :=
    List.length_pos.mpr hnew
  have hany := all_len_one_any_len_ne_one_false symbols hlen
  refine ⟨?_, ⟨fun hok => ?_, fun hfresh => ?_⟩, fun hok => ?_⟩
  · unfold confirmTransitionMain
    rw [hany]
    simp only [Bool.false_eq_true, if_false]
    rw [hfind]
    dsimp only
    rw [if_pos hlen0]
    rfl
  · cases hval : validateTransition A fromS symbols with
    | some e =>
      exfalso
      have hres : (confirmTransitionBase A fromS toS symbols newId).1 = some e := by
        unfold confirmTransitionBase
        rw [hval]
      rw [hok] at hres
      simp at hres
    | none => exact validate_none_fresh A fromS symbols hval
  · have hval := validate_none_of_fresh A fromS symbols hlen hfresh
    unfold confirmTransitionBase createNewTransition
    rw [hval, hfind]
    dsimp only
    rw [if_pos hlen0]
  · cases hval : validateTransition A fromS symbols with
    | some e =>
      exfalso
      have hres : (confirmTransitionBase A fromS toS symbols newId).1 = some e := by
        unfold confirmTransitionBase
        rw [hval]
      rw [hok] at hres
      simp at hres
    | none =>
      unfold confirmTransitionBase createNewTransition
      rw [hval, hfind]
      dsimp only
      rw [if_pos hlen0]
      rfl

/-- Witness for the amended C4: merging the fresh symbol `b` into the
existing `q0 --a--> q1` transition of `exA1` succeeds in both variants with
the same merged automaton, via `merge_symbol_check_behavior` with all
hypotheses discharged concretely. -/
theorem merge_symbol_check_behavior_witness :
    confirmTransitionMain exA1 exQ0 exQ1 ["b"] 60
      = (none, mergeResult exA1 exQ0.id exQ1.id
          ((["a"] : List String) ++ ["b"].filter (fun s =>
            !((["a"] : List String).contains s))))
    ∧ (confirmTransitionBase exA1 exQ0 exQ1 ["b"] 60).2
      = mergeResult exA1 exQ0.id exQ1.id
          ((["a"] : List String) ++ ["b"].filter (fun s =>
            !((["a"] : List String).contains s))) := by
  have h := merge_symbol_check_behavior exA1 exQ0 exQ1 ["b"] 60
    { tid := 10, fromS := exQ0, toS := exQ1, symbol := ["a"] }
    (by decide) (by decide) (by decide)
  exact ⟨h.1, h.2.2 (h.2.1.mpr (by decide))⟩

/-- C8 counterexample: with `q0 --a--> q1` and the request `{a}` (all
requested symbols already on the pair's transition), the `BaseAutomaton`
path fails with `DeterminismViolationError`, not `DuplicateSymbolError`:
`validateTransition` checks `a` against all transitions from `q0` —
including the one being merged into — before the duplicate check is ever
reached. -/
theorem duplicate_batch_counterexample :
    (["a"].filter (fun s => !((["a"] : List String).contains s))) = []
    ∧ confirmTransitionBase exA1 exQ0 exQ1 ["a"] 42
        = (some (TransErr.determinismViolation "a"), exA1)
    ∧ TransErr.determinismViolation "a" ≠ TransErr.duplicateSymbol := by
  refine ⟨by decide, by decide, by decide⟩

/-- C8 (amended): when the pair `(from, to)` already has a transition and
every requested symbol is already on it (`newSymbols` empty), the `main.js`
variant fails with `DuplicateSymbolError`, while the `BaseAutomaton` path
instead fails with `DeterminismViolationError` on the first requested
symbol; both leave the automaton unchanged. -/
theorem duplicate_batch_error (A : Automaton) (fromS toS : State)
    (symbols : List String) (newId : Nat) (ex : Transition)
    (hfind : A.transitions.find? (fun t => t.fromS.id == fromS.id && t.toS.id == toS.id)
        = some ex)
    (hlen : symbols.all (fun s => s.length == 1) = true)
    (hne : symbols ≠ [])
    (hdup : symbols.filter (fun s => !(ex.symbol.contains s)) = []) :
    confirmTransitionMain A fromS toS symbols newId
      = (some TransErr.duplicateSymbol, A)
    ∧ confirmTransitionBase A fromS toS symbols newId
      = (some (TransErr.determinismViolation (symbols.head hne)), A) := by
  have hany := all_len_one_any_len_ne_one_false symbols hlen
  constructor
  · unfold confirmTransitionMain
    rw [hany]
    simp only [Bool.false_eq_true, if_false]
    rw [hfind]
    dsimp only
    rw [hdup]
    simp
  · obtain ⟨s0, rest, rfl⟩ : ∃ s0 rest, symbols = s0 :: rest := by
      cases symbols with
      | nil => exact absurd rfl hne
      | cons a l => exact ⟨a, l, rfl⟩
    have hs0cont : ex.symbol.contains s0 = true := by
      have := List.filter_eq_nil_iff.mp hdup s0 (List.mem_cons_self _ _)
      simpa using this
    have hpred : (A.transitions.find? (fun t =>
        t.fromS.id == fromS.id && t.symbol.contains s0)).isSome = true := by
      apply List.find?_isSome.mpr
      refine ⟨ex, List.mem_of_find?_eq_some hfind, ?_⟩
      have hexp := List.find?_some hfind
      obtain ⟨hea, _⟩ : ex.fromS.id = fromS.id ∧ ex.toS.id = toS.id := by simpa using hexp
      have hs0mem : s0 ∈ ex.symbol := by simpa using hs0cont
      simp [hea, hs0mem]
    have h1 : (s0 :: rest).find? (fun s => s.length != 1) = none := by
      rw [List.find?_eq_none]
      intro s hs
      have := List.all_eq_true.mp hlen s hs
      simp at this ⊢
      exact this
    have h2 : (s0 :: rest).find? (fun sy =>
        (A.transitions.find? (fun t =>
          t.fromS.id == fromS.id && t.symbol.contains sy)).isSome) = some s0 := by
      simp only [List.find?_cons, hpred]
    unfold confirmTransitionBase validateTransition
    rw [h1, h2]
    rfl

/-- Witness for the amended C8: on `exA1` the all-duplicate request `{a}`
for `(q0, q1)` yields `DuplicateSymbolError` in the `main.js` variant and
`DeterminismViolationError` in the base path, via `duplicate_batch_error`
with all hypotheses discharged concretely. -/
theorem duplicate_batch_error_witness :
    confirmTransitionMain exA1 exQ0 exQ1 ["a"] 43
      = (some TransErr.duplicateSymbol, exA1)
    ∧ confirmTransitionBase exA1 exQ0 exQ1 ["a"] 43
      = (some (TransErr.determinismViolation "a"), exA1) :=
  duplicate_batch_error exA1 exQ0 exQ1 ["a"] 43
    { tid := 10, fromS := exQ0, toS := exQ1, symbol := ["a"] }
    (by decide) (by decide) (by decide) (by decide)

/-- C9 counterexample: a non-empty string occurring twice in the accept
list is skipped entirely — `runBulkTest` on accept list `["a", "a"]`
returns zero result rows, not one per string, even though the automaton
`exA1` has a start state and accepts `"a"`. -/
theorem bulk_duplicate_strings_skipped :
    runBulkTest exA1 [['a'], ['a']] [] = some []
    ∧ (runBulkTest exA1 [['a'], ['a']] []).map List.length = some 0
    ∧ simulateInput exA1 ['a'] = true := by
  refine ⟨by decide, by decide, by decide⟩

/-- C9 (amended): with a start state, `runBulkTest` returns one row for
each tested string — a string is tested iff it is empty or occurs exactly
once in its list, so duplicated non-empty strings contribute no rows —
and each row records whether `simulateInput` matched the expectation
(accept for the accept list, reject for the reject list).  When neither
list contains a duplicated non-empty string this is exactly one row per
string. -/
theorem bulk_results_shape (A : Automaton) (s0 : State) (h : A.startState = some s0)
    (acceptStrings rejectStrings : List (List Char)) :
    runBulkTest A acceptStrings rejectStrings
      = some (bulkSection A acceptStrings true ++ bulkSection A rejectStrings false)
    ∧ (∀ r ∈ bulkSection A acceptStrings true ++ bulkSection A rejectStrings false,
        r.actual = simulateInput A r.string ∧ r.passed = (r.actual == r.expected))
    ∧ ((∀ s ∈ acceptStrings, s = [] ∨ acceptStrings.count s = 1) →
        bulkSection A acceptStrings true = acceptStrings.map (fun s =>
          { string := s, expected := true, actual := simulateInput A s,
            passed := simulateInput A s == true }))
    ∧ ((∀ s ∈ rejectStrings, s = [] ∨ rejectStrings.count s = 1) →
        bulkSection A rejectStrings false = rejectStrings.map (fun s =>
          { string := s, expected := false, actual := simulateInput A s,
            passed := simulateInput A s == false })) := by
  refine ⟨?_, ?_, ?_, ?_⟩
  · unfold runBulkTest
    rw [h]
  · intro r hr
    rcases List.mem_append.mp hr with h1 | h1 <;>
    · unfold bulkSection at h1
      obtain ⟨s, hs, rfl⟩ := List.mem_map.mp h1
      exact ⟨rfl, rfl⟩
  · intro hall
    unfold bulkSection
    have hfil : acceptStrings.filter
        (fun s => s.isEmpty || acceptStrings.count s == 1) = acceptStrings := by
      apply List.filter_eq_self.mpr
      intro a ha
      rcases hall a ha with h1 | h2
      · simp [h1]
      · simp [h2]
    rw [hfil]
  · intro hall
    unfold bulkSection
    have hfil : rejectStrings.filter
        (fun s => s.isEmpty || rejectStrings.count s == 1) = rejectStrings := by
      apply List.filter_eq_self.mpr
      intro a ha
      rcases hall a ha with h1 | h2
      · simp [h1]
      · simp [h2]
    rw [hfil]

/-- Witness for the amended C9: duplicate-free accept list `["a"]` and
reject list `["b"]` on `exA1` produce exactly one row per string, via
`bulk_results_shape` with the hypotheses discharged concretely. -/
theorem bulk_results_shape_witness :
    runBulkTest exA1 [['a']] [['b']]
      = some (bulkSection exA1 [['a']] true ++ bulkSection exA1 [['b']] false)
    ∧ bulkSection exA1 [['a']] true = [['a']].map (fun s =>
        { string := s, expected := true, actual := simulateInput exA1 s,
          passed := simulateInput exA1 s == true })
    ∧ bulkSection exA1 [['b']] false = [['b']].map (fun s =>
        { string := s, expected := false, actual := simulateInput exA1 s,
          passed := simulateInput exA1 s == false }) := by
  have h := bulk_results_shape exA1 exQ0 rfl [['a']] [['b']]
  exact ⟨h.1, h.2.2.1 (by decide), h.2.2.2 (by decide)⟩
